import Mathlib

/-
Shallow embedding of the option-pricing core of the repository
(src/core/option_pricing/{base,BlackScholesModel,BinomialTreeModel,MonteCarloSimulation}.py),
together with proofs of the specified properties.

Machine floating point is modelled by exact real arithmetic; numpy's process-wide
random generator is modelled by an explicit state (seed value and number of draws
consumed) together with an arbitrary fixed function producing the standard-normal
variates for a given seed and draw index.
-/

open MeasureTheory

namespace QuantST

/-- Density of the standard normal distribution, `exp (-t²/2) / √(2π)`.
This is the mathematical function underlying `scipy.stats.norm`. -/
noncomputable def normPDF (t : ℝ) : ℝ :=
  (Real.sqrt (2 * Real.pi))⁻¹ * Real.exp (-t ^ 2 / 2)

/-- Cumulative distribution function of the standard normal distribution
(`scipy.stats.norm.cdf` in the source). -/
noncomputable def normCDF (x : ℝ) : ℝ := ∫ t in Set.Iic x, normPDF t

/-- The `OPTION_TYPE` enum from `src/core/option_pricing/base.py`. -/
inductive OPTION_TYPE where
  | CALL_OPTION
  | PUT_OPTION
  deriving DecidableEq

/-- An arbitrary Python value passed as the `option_type` argument of
`calculate_option_price`: either one of the two `OPTION_TYPE` enum members, or
any other object (which compares unequal to both under Python `==`). -/
inductive PyValue where
  | enum (t : OPTION_TYPE)
  | otherObject (s : String)
  deriving DecidableEq

/-- Message of the `ValueError` (the spec's `InvalidOptionType`) raised by all three
engines on an argument outside the two enum members. -/
def invalidOptionType : String :=
  "Invalid option type. Must be OPTION_TYPE.CALL_OPTION or OPTION_TYPE.PUT_OPTION."

/-! ### BlackScholesModel (src/core/option_pricing/BlackScholesModel.py) -/

/-- State of a `BlackScholesModel` instance after `__init__` (which calls
`_compute_d1_d2`) has run. -/
structure BlackScholesModel where
  S : ℝ
  K : ℝ
  T : ℝ
  r : ℝ
  sigma : ℝ
  d1 : ℝ
  d2 : ℝ

/-- BlackScholesModel.__init__ together with `_compute_d1_d2`:
stores `S`, `K`, `T = days_to_maturity / 365`, `r`, `sigma` and precomputes
`d1 = (log(S/K) + (r + 0.5·σ²)·T) / (σ·√T)` and `d2 = d1 - σ·√T`. -/
noncomputable def BlackScholesModel.init (underlying_spot_price strike_price
    days_to_maturity risk_free_rate sigma : ℝ) : BlackScholesModel :=
  let S := underlying_spot_price
  let K := strike_price
  let T := days_to_maturity / 365
  let r := risk_free_rate
  let sqrt_T := Real.sqrt T
  let sigma_sqrt_T := sigma * sqrt_T
  let log_SK := Real.log (S / K)
  let d1 := (log_SK + (r + 0.5 * sigma ^ 2) * T) / sigma_sqrt_T
  let d2 := d1 - sigma_sqrt_T
  { S := S, K := K, T := T, r := r, sigma := sigma, d1 := d1, d2 := d2 }

/-- BlackScholesModel.calculate_option_price. -/
noncomputable def BlackScholesModel.calculate_option_price (m : BlackScholesModel)
    (option_type : PyValue) : Except String ℝ :=
  match option_type with
  | .enum .CALL_OPTION =>
      .ok (m.S * normCDF m.d1 - m.K * Real.exp (-m.r * m.T) * normCDF m.d2)
  | .enum .PUT_OPTION =>
      .ok (m.K * Real.exp (-m.r * m.T) * normCDF (-m.d2) - m.S * normCDF (-m.d1))
  | _ => .error invalidOptionType

/-! ### BinomialTreeModel (src/core/option_pricing/BinomialTreeModel.py) -/

/-- State of a `BinomialTreeModel` instance after `__init__` has run. -/
structure BinomialTreeModel where
  S : ℝ
  K : ℝ
  T : ℝ
  r : ℝ
  sigma : ℝ
  N : ℕ
  dT : ℝ
  u : ℝ
  d : ℝ
  a : ℝ
  p : ℝ
  q : ℝ
  discount : ℝ

/-- BinomialTreeModel.__init__: stores the contract parameters and precomputes
`dT = T/N`, `u = exp(σ√dT)`, `d = 1/u`, `a = exp(r·dT)`, `p = (a-d)/(u-d)`,
`q = 1-p`, `discount = exp(-r·dT)`. -/
noncomputable def BinomialTreeModel.init (underlying_spot_price strike_price
    days_to_maturity risk_free_rate sigma : ℝ) (number_of_time_steps : ℕ) :
    BinomialTreeModel :=
  let S := underlying_spot_price
  let K := strike_price
  let T := days_to_maturity / 365
  let r := risk_free_rate
  let N := number_of_time_steps
  let dT := T / N
  let u := Real.exp (sigma * Real.sqrt dT)
  let d := 1.0 / u
  let a := Real.exp (r * dT)
  let p := (a - d) / (u - d)
  let q := 1.0 - p
  let discount := Real.exp (-r * dT)
  ⟨S, K, T, r, sigma, N, dT, u, d, a, p, q, discount⟩

/-- The `payoff_function` selected at the top of
BinomialTreeModel.calculate_option_price: `np.maximum(S - K, 0)` for a call and
`np.maximum(K - S, 0)` for a put. -/
noncomputable def BinomialTreeModel.payoff (m : BinomialTreeModel) :
    OPTION_TYPE → ℝ → ℝ
  | .CALL_OPTION => fun s => max (s - m.K) 0
  | .PUT_OPTION => fun s => max (m.K - s) 0

/-- The terminal asset prices `S_T = S * u**(N - j) * d**j` for `j = 0..N`
(`j = np.arange(N + 1)` in the source). -/
noncomputable def BinomialTreeModel.terminalPrices (m : BinomialTreeModel) : List ℝ :=
  (List.range (m.N + 1)).map fun j => m.S * m.u ^ (m.N - j) * m.d ^ j

/-- One step of the backward-induction loop:
`V = discount * (p * V[:-1] + q * V[1:])`. -/
noncomputable def BinomialTreeModel.inductionStep (m : BinomialTreeModel)
    (V : List ℝ) : List ℝ :=
  (V.zip V.tail).map fun x => m.discount * (m.p * x.1 + m.q * x.2)

/-- BinomialTreeModel.calculate_option_price: select the payoff function (raising
on an invalid option type), apply it to the terminal prices, run the
backward-induction loop `N` times and return the remaining front element. -/
noncomputable def BinomialTreeModel.calculate_option_price (m : BinomialTreeModel)
    (option_type : PyValue) : Except String ℝ :=
  match option_type with
  | .enum t =>
      .ok ((m.inductionStep^[m.N] (m.terminalPrices.map (m.payoff t))).headD 0)
  | _ => .error invalidOptionType

/-! ### MonteCarloPricing (src/core/option_pricing/MonteCarloSimulation.py) -/

/-- State of numpy's process-wide random generator: the last seed that was set and
the number of variates drawn since.  The actual values produced are given by an
arbitrary fixed function `gauss : seed → draw index → ℝ` threaded through the
definitions below. -/
structure NumpyRandomState where
  seedValue : ℕ
  position : ℕ
  deriving DecidableEq

/-- numpy.random.seed(n): resets the process-wide generator state. -/
def numpySeed (n : ℕ) (_rng : NumpyRandomState) : NumpyRandomState := ⟨n, 0⟩

/-- numpy.random.standard_normal(k): produces `k` variates from the current
generator state and advances it. -/
def standardNormal (gauss : ℕ → ℕ → ℝ) (k : ℕ) (rng : NumpyRandomState) :
    List ℝ × NumpyRandomState :=
  ((List.range k).map fun i => gauss rng.seedValue (rng.position + i),
   ⟨rng.seedValue, rng.position + k⟩)

/-- np.mean of a vector: sum divided by length. -/
noncomputable def npMean (l : List ℝ) : ℝ := l.sum / l.length

/-- State of a `MonteCarloPricing` instance. `S_T = none` models the attribute
`self.S_T` not existing yet (the `AttributeError` probe in the source). -/
structure MonteCarloPricing where
  S_0 : ℝ
  K : ℝ
  T : ℝ
  r : ℝ
  sigma : ℝ
  N : ℕ
  discount_factor : ℝ
  S_T : Option (List ℝ)

/-- MonteCarloPricing.__init__: stores the parameters, seeds the process-wide
generator with the fixed seed 20, and precomputes `discount_factor = exp(-r·T)`.
Returns the new instance together with the generator state after seeding. -/
noncomputable def MonteCarloPricing.init (underlying_spot_price strike_price
    days_to_maturity risk_free_rate sigma : ℝ) (number_of_simulations : ℕ)
    (rng : NumpyRandomState) : MonteCarloPricing × NumpyRandomState :=
  let T := days_to_maturity / 365
  ({ S_0 := underlying_spot_price, K := strike_price, T := T,
     r := risk_free_rate, sigma := sigma, N := number_of_simulations,
     discount_factor := Real.exp (-risk_free_rate * T), S_T := none },
   numpySeed 20 rng)

/-- MonteCarloPricing.simulate_terminal_prices: draws `N` standard-normal variates
`Z` and sets `S_T = S_0 * exp((r - 0.5·σ²)·T + σ·√T·Z)` elementwise. -/
noncomputable def MonteCarloPricing.simulate_terminal_prices (gauss : ℕ → ℕ → ℝ)
    (m : MonteCarloPricing) (rng : NumpyRandomState) :
    MonteCarloPricing × NumpyRandomState :=
  let Z := standardNormal gauss m.N rng
  ({ m with
      S_T := some (Z.1.map fun z =>
        m.S_0 * Real.exp ((m.r - 0.5 * m.sigma ^ 2) * m.T
          + m.sigma * Real.sqrt m.T * z)) },
   Z.2)

/-- MonteCarloPricing.calculate_option_price: simulate the terminal prices first if
the attribute does not exist yet, then compute the discounted mean payoff for the
requested option type (raising on an invalid one).  Returns the result together
with the instance state and generator state after the call. -/
noncomputable def MonteCarloPricing.calculate_option_price (gauss : ℕ → ℕ → ℝ)
    (m : MonteCarloPricing) (rng : NumpyRandomState) (option_type : PyValue) :
    Except String ℝ × MonteCarloPricing × NumpyRandomState :=
  let mr :=
    match m.S_T with
    | none => m.simulate_terminal_prices gauss rng
    | some _ => (m, rng)
  let prices := mr.1.S_T.getD []
  match option_type with
  | .enum .CALL_OPTION =>
      (.ok (mr.1.discount_factor * npMean (prices.map fun s => max (s - mr.1.K) 0)),
       mr.1, mr.2)
  | .enum .PUT_OPTION =>
      (.ok (mr.1.discount_factor * npMean (prices.map fun s => max (mr.1.K - s) 0)),
       mr.1, mr.2)
  | _ => (.error invalidOptionType, mr.1, mr.2)

/-- A fixed stand-in generator used for concrete witnesses. -/
def zeroGauss : ℕ → ℕ → ℝ := fun _ _ => 0

/-! ### Error handling (C5) -/

/-- C5: for every instance of each of the three engines, `calculate_option_price`
fails with the invalid-option-type error exactly when the argument is neither the
CALL variant nor the PUT variant, and it returns a price (never that error) on
both defined variants. -/
theorem C5_invalid_option_type_iff (bs : BlackScholesModel) (bt : BinomialTreeModel)
    (mc : MonteCarloPricing) (gauss : ℕ → ℕ → ℝ) (rng : NumpyRandomState)
    (v : PyValue) :
    (bs.calculate_option_price v = .error invalidOptionType ↔
      v ≠ .enum .CALL_OPTION ∧ v ≠ .enum .PUT_OPTION) ∧
    (bt.calculate_option_price v = .error invalidOptionType ↔
      v ≠ .enum .CALL_OPTION ∧ v ≠ .enum .PUT_OPTION) ∧
    ((mc.calculate_option_price gauss rng v).1 = .error invalidOptionType ↔
      v ≠ .enum .CALL_OPTION ∧ v ≠ .enum .PUT_OPTION) ∧
    (∀ t : OPTION_TYPE,
      (∃ c, bs.calculate_option_price (.enum t) = .ok c) ∧
      (∃ c, bt.calculate_option_price (.enum t) = .ok c) ∧
      (∃ c, (mc.calculate_option_price gauss rng (.enum t)).1 = .ok c)) := by
  refine ⟨?_, ?_, ?_, ?_⟩
  · rcases v with t | s
    · cases t <;>
        simp [BlackScholesModel.calculate_option_price]
    · simp [BlackScholesModel.calculate_option_price]
  · rcases v with t | s
    · cases t <;>
        simp [BinomialTreeModel.calculate_option_price]
    · simp [BinomialTreeModel.calculate_option_price]
  · rcases v with t | s
    · cases t <;>
        simp [MonteCarloPricing.calculate_option_price]
    · simp [MonteCarloPricing.calculate_option_price]
  · intro t
    cases t <;>
      exact ⟨⟨_, rfl⟩, ⟨_, rfl⟩, ⟨_, rfl⟩⟩

/-! ### Monte Carlo state behaviour (C7, C8, C9) -/

/-- C9: the generator is reset to the fixed documented seed (20) at construction,
so the price obtained by constructing a SimulationModel and then querying it does
not depend on the prior state of the process-wide generator: two such runs with
identical parameters produce identical prices. -/
theorem C9_deterministic_seeded (gauss : ℕ → ℕ → ℝ) (S0 K days r sigma : ℝ)
    (M : ℕ) (rng1 rng2 : NumpyRandomState) (t : OPTION_TYPE) :
    (MonteCarloPricing.init S0 K days r sigma M rng1).2 = ⟨20, 0⟩ ∧
    ((MonteCarloPricing.init S0 K days r sigma M rng1).1.calculate_option_price
        gauss (MonteCarloPricing.init S0 K days r sigma M rng1).2 (.enum t)).1 =
      ((MonteCarloPricing.init S0 K days r sigma M rng2).1.calculate_option_price
        gauss (MonteCarloPricing.init S0 K days r sigma M rng2).2 (.enum t)).1 :=
  ⟨rfl, rfl⟩

/-- C7: pricing generates the terminal prices exactly once.  After any call the
cache is populated; a call on an instance whose cache is already populated leaves
both the instance and the generator state untouched; and a second call with the
same option type (under any generator state) returns the first call's price and
does not change the instance. -/
theorem C7_idempotent_pricing (gauss gauss2 : ℕ → ℕ → ℝ) (m : MonteCarloPricing)
    (rng rng2 : NumpyRandomState) (t : OPTION_TYPE) :
    ((m.calculate_option_price gauss rng (.enum t)).2.1.S_T).isSome = true ∧
    (∀ l : List ℝ,
      (MonteCarloPricing.calculate_option_price gauss { m with S_T := some l }
        rng (.enum t)).2 = ({ m with S_T := some l }, rng)) ∧
    ((m.calculate_option_price gauss rng (.enum t)).2.1.calculate_option_price
        gauss2 rng2 (.enum t)) =
      ((m.calculate_option_price gauss rng (.enum t)).1,
       (m.calculate_option_price gauss rng (.enum t)).2.1, rng2) := by
  rcases h : m.S_T with _ | l <;> cases t <;>
    simp [MonteCarloPricing.calculate_option_price,
      MonteCarloPricing.simulate_terminal_prices, h]

/-- C8 fails on the code: a SimulationModel with no terminal prices that is queried
with an invalid option type *does* have terminal prices after the failing call,
because the simulation step runs before the option-type check.  Concretely, with
`S=100, K=100, days=365, r=0.05, sigma=0.2, M=3`, the instance starts with no
terminal prices, the query fails with the invalid-option-type error, and the
post-call instance has a populated terminal-price cache. -/
theorem C8_counterexample :
    (MonteCarloPricing.init 100 100 365 0.05 0.2 3 ⟨0, 0⟩).1.S_T = none ∧
    (MonteCarloPricing.calculate_option_price zeroGauss
        (MonteCarloPricing.init 100 100 365 0.05 0.2 3 ⟨0, 0⟩).1
        (MonteCarloPricing.init 100 100 365 0.05 0.2 3 ⟨0, 0⟩).2
        (.otherObject "not an option type")).1 = .error invalidOptionType ∧
    ((MonteCarloPricing.calculate_option_price zeroGauss
        (MonteCarloPricing.init 100 100 365 0.05 0.2 3 ⟨0, 0⟩).1
        (MonteCarloPricing.init 100 100 365 0.05 0.2 3 ⟨0, 0⟩).2
        (.otherObject "not an option type")).2.1.S_T).isSome = true := by
  refine ⟨rfl, rfl, ?_⟩
  simp [MonteCarloPricing.calculate_option_price,
    MonteCarloPricing.simulate_terminal_prices, MonteCarloPricing.init]

/-- C8 amended: whenever `calculate_option_price` fails with the
invalid-option-type error, no price is produced and every parameter field of the
instance is unchanged, but the lazy terminal-price cache may be populated by the
failing call: if the instance had no terminal prices, the failing call first
generates them (the simulation step precedes the option-type validation). -/
theorem C8_amended_failing_call_state (gauss : ℕ → ℕ → ℝ) (m : MonteCarloPricing)
    (rng : NumpyRandomState) (s : String) :
    (m.calculate_option_price gauss rng (.otherObject s)).1 =
      .error invalidOptionType ∧
    (m.calculate_option_price gauss rng (.otherObject s)).2.1 =
      (match m.S_T with
       | none => (m.simulate_terminal_prices gauss rng).1
       | some _ => m) ∧
    (m.calculate_option_price gauss rng (.otherObject s)).2.1.S_0 = m.S_0 ∧
    (m.calculate_option_price gauss rng (.otherObject s)).2.1.K = m.K ∧
    (m.calculate_option_price gauss rng (.otherObject s)).2.1.T = m.T ∧
    (m.calculate_option_price gauss rng (.otherObject s)).2.1.r = m.r ∧
    (m.calculate_option_price gauss rng (.otherObject s)).2.1.sigma = m.sigma ∧
    (m.calculate_option_price gauss rng (.otherObject s)).2.1.N = m.N ∧
    (m.calculate_option_price gauss rng (.otherObject s)).2.1.discount_factor =
      m.discount_factor := by
  rcases h : m.S_T with _ | l <;>
    simp [MonteCarloPricing.calculate_option_price,
      MonteCarloPricing.simulate_terminal_prices, h]

/-! ### Binomial tree lemmas (C2, C10) -/

theorem headD_eq_getD_zero (l : List ℝ) : l.headD 0 = l.getD 0 0 := by
  cases l <;> rfl

theorem BinomialTreeModel.inductionStep_length (m : BinomialTreeModel)
    (V : List ℝ) : (m.inductionStep V).length = V.length - 1 := by
  simp [inductionStep]

theorem BinomialTreeModel.inductionStep_getD (m : BinomialTreeModel) (V : List ℝ)
    (j : ℕ) (h : j + 1 < V.length) :
    (m.inductionStep V).getD j 0 =
      m.discount * (m.p * V.getD j 0 + m.q * V.getD (j + 1) 0) := by
  have hl : j < (m.inductionStep V).length := by
    rw [m.inductionStep_length]; omega
  rw [List.getD_eq_getElem _ _ hl, List.getD_eq_getElem _ _ (by omega : j < V.length),
    List.getD_eq_getElem _ _ h]
  simp [inductionStep, List.getElem_zip, List.getElem_tail]

theorem BinomialTreeModel.iterate_inductionStep_length (m : BinomialTreeModel)
    (k : ℕ) : ∀ V : List ℝ, (m.inductionStep^[k] V).length = V.length - k := by
  induction k with
  | zero => intro V; simp
  | succ k ih =>
      intro V
      rw [Function.iterate_succ_apply, ih, m.inductionStep_length]
      omega

theorem BinomialTreeModel.terminalPrices_length (m : BinomialTreeModel) :
    m.terminalPrices.length = m.N + 1 := by
  simp [terminalPrices]

theorem BinomialTreeModel.terminalPrices_getD (m : BinomialTreeModel) (j : ℕ)
    (h : j ≤ m.N) :
    m.terminalPrices.getD j 0 = m.S * m.u ^ (m.N - j) * m.d ^ j := by
  have hl : j < m.terminalPrices.length := by rw [m.terminalPrices_length]; omega
  rw [List.getD_eq_getElem _ _ hl]
  simp [terminalPrices]

/-- Recombination of one backward-induction layer into the binomial coefficients
of the next layer, by Pascal's rule. -/
theorem pascal_recombination (p q : ℝ) (f : ℕ → ℝ) (n : ℕ) :
    ∑ j ∈ Finset.range (n + 1),
        (n.choose j : ℝ) * p ^ (n - j) * q ^ j * (p * f j + q * f (j + 1)) =
      ∑ j ∈ Finset.range (n + 2),
        ((n + 1).choose j : ℝ) * p ^ (n + 1 - j) * q ^ j * f j := by
  have expand : ∀ j ∈ Finset.range (n + 1),
      (n.choose j : ℝ) * p ^ (n - j) * q ^ j * (p * f j + q * f (j + 1)) =
        (n.choose j : ℝ) * p ^ (n + 1 - j) * q ^ j * f j +
          (n.choose j : ℝ) * p ^ (n - j) * q ^ (j + 1) * f (j + 1) := by
    intro j hj
    have hj' : j ≤ n := Nat.lt_succ_iff.mp (Finset.mem_range.mp hj)
    have hpow : n + 1 - j = (n - j) + 1 := by omega
    rw [hpow, pow_succ, pow_succ]
    ring
  rw [Finset.sum_congr rfl expand, Finset.sum_add_distrib]
  have hA : ∑ j ∈ Finset.range (n + 1),
      (n.choose j : ℝ) * p ^ (n + 1 - j) * q ^ j * f j =
        (∑ j ∈ Finset.range n,
          (n.choose (j + 1) : ℝ) * p ^ (n - j) * q ^ (j + 1) * f (j + 1)) +
          p ^ (n + 1) * f 0 := by
    rw [Finset.sum_range_succ']
    congr 1
    · refine Finset.sum_congr rfl fun j hj => ?_
      have hjn : n + 1 - (j + 1) = n - j := by omega
      rw [hjn]
    · simp
  have hA2 : ∑ j ∈ Finset.range (n + 1),
      (n.choose (j + 1) : ℝ) * p ^ (n - j) * q ^ (j + 1) * f (j + 1) =
        ∑ j ∈ Finset.range n,
          (n.choose (j + 1) : ℝ) * p ^ (n - j) * q ^ (j + 1) * f (j + 1) := by
    rw [Finset.sum_range_succ]
    simp [Nat.choose_succ_self]
  have hRHS : ∑ j ∈ Finset.range (n + 2),
      ((n + 1).choose j : ℝ) * p ^ (n + 1 - j) * q ^ j * f j =
        (∑ j ∈ Finset.range (n + 1),
          ((n.choose j : ℝ) * p ^ (n - j) * q ^ (j + 1) * f (j + 1) +
            (n.choose (j + 1) : ℝ) * p ^ (n - j) * q ^ (j + 1) * f (j + 1))) +
          p ^ (n + 1) * f 0 := by
    rw [Finset.sum_range_succ']
    congr 1
    · refine Finset.sum_congr rfl fun j hj => ?_
      have h1 : n + 1 - (j + 1) = n - j := by omega
      rw [h1, Nat.choose_succ_succ]
      push_cast
      ring
    · simp
  rw [hA, hRHS, Finset.sum_add_distrib, hA2]
  ring

/-- In exact real arithmetic the iterated backward-induction step applied to any
vector of at least `n + 1` node values produces, at the front, the discounted
binomial recombination of the first `n + 1` values. -/
theorem BinomialTreeModel.iterate_closed_form (m : BinomialTreeModel) (n : ℕ) :
    ∀ V : List ℝ, n + 1 ≤ V.length →
      (m.inductionStep^[n] V).getD 0 0 =
        m.discount ^ n * ∑ j ∈ Finset.range (n + 1),
          (n.choose j : ℝ) * m.p ^ (n - j) * m.q ^ j * V.getD j 0 := by
  induction n with
  | zero =>
      intro V hV
      simp
  | succ n ih =>
      intro V hV
      rw [Function.iterate_succ_apply, ih (m.inductionStep V)
        (by rw [m.inductionStep_length]; omega)]
      have hstep : ∀ j ∈ Finset.range (n + 1),
          (n.choose j : ℝ) * m.p ^ (n - j) * m.q ^ j *
              (m.inductionStep V).getD j 0 =
            m.discount * ((n.choose j : ℝ) * m.p ^ (n - j) * m.q ^ j *
              (m.p * V.getD j 0 + m.q * V.getD (j + 1) 0)) := by
        intro j hj
        have hj' : j < n + 1 := Finset.mem_range.mp hj
        rw [m.inductionStep_getD V j (by omega)]
        ring
      rw [Finset.sum_congr rfl hstep, ← Finset.mul_sum,
        pascal_recombination m.p m.q (fun j => V.getD j 0) n]
      rw [show n + 1 + 1 = n + 2 from rfl]
      ring

/-- The value returned by the backward-induction loop equals the closed-form
binomial sum, for any instance. -/
theorem BinomialTreeModel.calculate_closed_form (m : BinomialTreeModel)
    (t : OPTION_TYPE) :
    m.calculate_option_price (.enum t) =
      .ok (m.discount ^ m.N * ∑ j ∈ Finset.range (m.N + 1),
        (m.N.choose j : ℝ) * m.p ^ (m.N - j) * m.q ^ j *
          m.payoff t (m.S * m.u ^ (m.N - j) * m.d ^ j)) := by
  have hlen : m.N + 1 ≤ (m.terminalPrices.map (m.payoff t)).length := by
    rw [List.length_map, m.terminalPrices_length]
  have hcalc : m.calculate_option_price (.enum t) =
      .ok ((m.inductionStep^[m.N] (m.terminalPrices.map (m.payoff t))).headD 0) :=
    rfl
  rw [hcalc, headD_eq_getD_zero, m.iterate_closed_form m.N _ hlen]
  congr 2
  refine Finset.sum_congr rfl fun j hj => ?_
  have hj' : j ≤ m.N := Nat.lt_succ_iff.mp (Finset.mem_range.mp hj)
  have hjl : j < m.terminalPrices.length := by rw [m.terminalPrices_length]; omega
  have hjm : j < (m.terminalPrices.map (m.payoff t)).length := by
    rw [List.length_map]; omega
  rw [List.getD_eq_getElem _ _ hjm, List.getElem_map]
  congr 1
  rw [← List.getD_eq_getElem _ _ hjl, m.terminalPrices_getD j hj']

/-- C2: for every LatticeModel with `N ≥ 1` built by the constructor, the
precomputed constants are `u = exp(σ√(T/N))`, `d = 1/u`, `p = (exp(r·T/N)-d)/(u-d)`,
`q = 1-p`, `discount = exp(-r·T/N)`; the terminal vector holds the `N+1` prices
`S·u^(N-j)·d^j`; the payoff applied to it is `max(S_T-K,0)` for a call and
`max(K-S_T,0)` for a put; each backward-induction step sends a vector of `n+1`
values to the `n` values `discount·(p·V_i + q·V_{i+1})`; after `k ≤ N` steps
`N+1-k` values remain, so after exactly `N` steps one value remains, and
`calculate_option_price` returns it. -/
theorem C2_binomial_backward_induction (S K days r sigma : ℝ) (N : ℕ)
    (hN : 1 ≤ N) (t : OPTION_TYPE) (m : BinomialTreeModel)
    (hm : m = BinomialTreeModel.init S K days r sigma N) :
    m.T = days / 365 ∧ m.dT = m.T / N ∧
    m.u = Real.exp (sigma * Real.sqrt m.dT) ∧
    m.d = 1 / m.u ∧
    m.p = (Real.exp (r * m.dT) - m.d) / (m.u - m.d) ∧
    m.q = 1 - m.p ∧
    m.discount = Real.exp (-(r * m.dT)) ∧
    m.terminalPrices.length = N + 1 ∧
    (∀ j ≤ N, m.terminalPrices.getD j 0 = S * m.u ^ (N - j) * m.d ^ j) ∧
    m.payoff .CALL_OPTION = (fun sT => max (sT - K) 0) ∧
    m.payoff .PUT_OPTION = (fun sT => max (K - sT) 0) ∧
    (∀ V : List ℝ, (m.inductionStep V).length = V.length - 1) ∧
    (∀ (V : List ℝ) (i : ℕ), i + 1 < V.length →
      (m.inductionStep V).getD i 0 =
        m.discount * (m.p * V.getD i 0 + m.q * V.getD (i + 1) 0)) ∧
    (∀ k ≤ N, (m.inductionStep^[k] (m.terminalPrices.map (m.payoff t))).length =
      N + 1 - k) ∧
    (m.inductionStep^[N] (m.terminalPrices.map (m.payoff t))).length = 1 ∧
    m.calculate_option_price (.enum t) =
      .ok ((m.inductionStep^[N] (m.terminalPrices.map (m.payoff t))).headD 0) := by
  have hlen : ∀ k ≤ N,
      (m.inductionStep^[k] (m.terminalPrices.map (m.payoff t))).length =
        N + 1 - k := by
    intro k hk
    rw [m.iterate_inductionStep_length, List.length_map, m.terminalPrices_length,
      hm]
    rfl
  subst hm
  refine ⟨rfl, rfl, rfl, by norm_num [BinomialTreeModel.init], rfl,
    by norm_num [BinomialTreeModel.init], ?_, ?_, ?_, rfl, rfl,
    fun V => BinomialTreeModel.inductionStep_length _ V,
    fun V i h => BinomialTreeModel.inductionStep_getD _ V i h, hlen, ?_, rfl⟩
  · show Real.exp (-r * (days / 365 / N)) = Real.exp (-(r * (days / 365 / N)))
    rw [neg_mul]
  · exact BinomialTreeModel.terminalPrices_length _
  · intro j hj
    exact BinomialTreeModel.terminalPrices_getD _ j hj
  · have := hlen N le_rfl
    omega

/-- C10: in exact real arithmetic the iterative backward induction equals the
closed-form binomial sum: the returned value is
`discount^N · Σ_{j=0}^{N} C(N,j) · p^(N-j) · q^j · payoff(S·u^(N-j)·d^j)`. -/
theorem C10_backward_induction_closed_form (S K days r sigma : ℝ) (N : ℕ)
    (hN : 1 ≤ N) (t : OPTION_TYPE) (m : BinomialTreeModel)
    (hm : m = BinomialTreeModel.init S K days r sigma N) :
    m.calculate_option_price (.enum t) =
      .ok (m.discount ^ N * ∑ j ∈ Finset.range (N + 1),
        (N.choose j : ℝ) * m.p ^ (N - j) * m.q ^ j *
          m.payoff t (S * m.u ^ (N - j) * m.d ^ j)) := by
  subst hm
  exact BinomialTreeModel.calculate_closed_form _ t

/-! ### Properties of the standard normal distribution -/

theorem normPDF_pos (t : ℝ) : 0 < normPDF t := by
  have h2pi : 0 < 2 * Real.pi := by positivity
  have : 0 < Real.sqrt (2 * Real.pi) := Real.sqrt_pos.mpr h2pi
  unfold normPDF
  positivity

theorem integrable_normPDF : Integrable normPDF := by
  have h : Integrable fun t : ℝ => Real.exp (-2⁻¹ * t ^ 2) :=
    integrable_exp_neg_mul_sq (by norm_num)
  have heq : normPDF = fun t : ℝ =>
      (Real.sqrt (2 * Real.pi))⁻¹ * Real.exp (-2⁻¹ * t ^ 2) := by
    funext t
    rw [normPDF, show -t ^ 2 / 2 = -2⁻¹ * t ^ 2 from by ring]
  rw [heq]
  exact h.const_mul _

theorem integral_normPDF : ∫ t : ℝ, normPDF t = 1 := by
  have heq : ∀ t : ℝ, normPDF t =
      (Real.sqrt (2 * Real.pi))⁻¹ * Real.exp (-2⁻¹ * t ^ 2) := by
    intro t
    rw [normPDF, show -t ^ 2 / 2 = -2⁻¹ * t ^ 2 from by ring]
  simp only [heq]
  rw [integral_mul_left, integral_gaussian]
  have hπ : Real.pi / 2⁻¹ = 2 * Real.pi := by ring
  rw [hπ, inv_mul_cancel₀]
  exact ne_of_gt (Real.sqrt_pos.mpr (by positivity))

theorem normPDF_neg (t : ℝ) : normPDF (-t) = normPDF t := by
  rw [normPDF, normPDF, neg_sq]

/-- Translating the normal density: `φ(t+s) = φ(t)·exp(-t·s - s²/2)`. -/
theorem normPDF_add (t s : ℝ) :
    normPDF (t + s) = normPDF t * Real.exp (-(t * s) - s ^ 2 / 2) := by
  rw [normPDF, normPDF, mul_assoc, ← Real.exp_add]
  congr 1
  ring_nf

/-- Translation invariance of the Lebesgue integral over a left ray. -/
theorem integral_Iic_comp_add (f : ℝ → ℝ) (x s : ℝ) :
    (∫ t in Set.Iic x, f (t + s)) = ∫ t in Set.Iic (x + s), f t := by
  have A : MeasurableEmbedding fun t : ℝ => t + s :=
    (Homeomorph.addRight s).isClosedEmbedding.measurableEmbedding
  have B := A.setIntegral_map (μ := volume) f (Set.Iic (x + s))
  rw [map_add_right_eq_self volume s] at B
  rw [B]
  congr 1
  ext t
  simp

theorem normCDF_shifted (x s : ℝ) :
    (∫ t in Set.Iic x, normPDF (t + s)) = normCDF (x + s) := by
  rw [normCDF, integral_Iic_comp_add]

/-- Key comparison behind non-negativity of the Black-Scholes prices: for `s > 0`,
`exp(-a)·Φ(a/s - s/2) ≤ Φ(a/s + s/2)`. -/
theorem exp_mul_normCDF_le (a s : ℝ) (hs : 0 < s) :
    Real.exp (-a) * normCDF (a / s - s / 2) ≤ normCDF (a / s + s / 2) := by
  have hkey : normCDF (a / s + s / 2) =
      ∫ t in Set.Iic (a / s - s / 2), normPDF (t + s) := by
    rw [normCDF_shifted]
    congr 1
    ring
  have hc : Real.exp (-a) * normCDF (a / s - s / 2) =
      ∫ t in Set.Iic (a / s - s / 2), Real.exp (-a) * normPDF t := by
    rw [normCDF, integral_mul_left]
  rw [hkey, hc]
  refine setIntegral_mono_on ((integrable_normPDF.const_mul _).integrableOn)
    ((integrable_normPDF.comp_add_right s).integrableOn) measurableSet_Iic ?_
  intro t ht
  have ht' : t ≤ a / s - s / 2 := ht
  rw [normPDF_add, mul_comm (Real.exp (-a)) (normPDF t)]
  refine mul_le_mul_of_nonneg_left ?_ (le_of_lt (normPDF_pos t))
  rw [Real.exp_le_exp]
  have h1 : t * s ≤ (a / s - s / 2) * s :=
    mul_le_mul_of_nonneg_right ht' hs.le
  have h2 : (a / s - s / 2) * s = a - s ^ 2 / 2 := by
    field_simp
    ring
  nlinarith [sq_nonneg s]

/-- Reflection formula for the standard normal CDF: `Φ(-x) = 1 - Φ(x)`. -/
theorem normCDF_neg_eq (x : ℝ) : normCDF (-x) = 1 - normCDF x := by
  have hrefl : normCDF (-x) = ∫ t in Set.Ioi x, normPDF t := by
    rw [normCDF]
    have : (∫ t in Set.Iic (-x), normPDF t) =
        ∫ t in Set.Iic (-x), normPDF (-t) := by
      refine setIntegral_congr_fun measurableSet_Iic fun t _ => ?_
      rw [normPDF_neg]
    rw [this, integral_comp_neg_Iic, neg_neg]
  have htotal : normCDF x + (∫ t in Set.Ioi x, normPDF t) = 1 := by
    rw [normCDF, intervalIntegral.integral_Iic_add_Ioi integrable_normPDF.integrableOn
      integrable_normPDF.integrableOn, integral_normPDF]
  rw [hrefl]
  linarith

/-! ### Black-Scholes claims (C1, C4) -/

/-- C1: an AnalyticModel built with `S>0, K>0, T>0, σ>0` stores
`T = days/365`, `d1 = (ln(S/K) + (r + σ²/2)T)/(σ√T)` and `d2 = d1 - σ√T`,
and prices a call as `S·Φ(d1) - K·e^{-rT}·Φ(d2)` and a put as
`K·e^{-rT}·Φ(-d2) - S·Φ(-d1)`. -/
theorem C1_black_scholes_formulas (S K days r sigma : ℝ)
    (hS : 0 < S) (hK : 0 < K) (hdays : 0 < days) (hsig : 0 < sigma)
    (m : BlackScholesModel) (hm : m = BlackScholesModel.init S K days r sigma) :
    m.T = days / 365 ∧
    m.d1 = (Real.log (S / K) + (r + sigma ^ 2 / 2) * m.T) /
      (sigma * Real.sqrt m.T) ∧
    m.d2 = m.d1 - sigma * Real.sqrt m.T ∧
    m.calculate_option_price (.enum .CALL_OPTION) =
      .ok (S * normCDF m.d1 - K * Real.exp (-(r * m.T)) * normCDF m.d2) ∧
    m.calculate_option_price (.enum .PUT_OPTION) =
      .ok (K * Real.exp (-(r * m.T)) * normCDF (-m.d2) - S * normCDF (-m.d1)) := by
  subst hm
  refine ⟨rfl, ?_, rfl, ?_, ?_⟩
  · simp only [BlackScholesModel.init]
    ring_nf
  · simp only [BlackScholesModel.calculate_option_price, BlackScholesModel.init,
      neg_mul]
  · simp only [BlackScholesModel.calculate_option_price, BlackScholesModel.init,
      neg_mul]

/-- C4: put-call parity for the AnalyticModel: the call price minus the put price
equals `S - K·e^{-rT}` exactly, in real arithmetic. -/
theorem C4_put_call_parity (S K days r sigma : ℝ)
    (hS : 0 < S) (hK : 0 < K) (hdays : 0 < days) (hsig : 0 < sigma)
    (m : BlackScholesModel) (hm : m = BlackScholesModel.init S K days r sigma) :
    ∃ c p : ℝ,
      m.calculate_option_price (.enum .CALL_OPTION) = .ok c ∧
      m.calculate_option_price (.enum .PUT_OPTION) = .ok p ∧
      c - p = S - K * Real.exp (-(r * (days / 365))) := by
  subst hm
  refine ⟨_, _, rfl, rfl, ?_⟩
  simp only [BlackScholesModel.init]
  rw [normCDF_neg_eq, normCDF_neg_eq]
  simp only [neg_mul]
  ring

/-- Non-negativity of the Black-Scholes call value, with `d1` and `d2` spelled out
as the source computes them. -/
theorem bs_call_nonneg (S K T r sigma : ℝ) (hS : 0 < S) (hK : 0 < K)
    (hT : 0 < T) (hsig : 0 < sigma) :
    0 ≤ S * normCDF ((Real.log (S / K) + (r + 0.5 * sigma ^ 2) * T) /
          (sigma * Real.sqrt T)) -
        K * Real.exp (-r * T) *
          normCDF ((Real.log (S / K) + (r + 0.5 * sigma ^ 2) * T) /
            (sigma * Real.sqrt T) - sigma * Real.sqrt T) := by
  set s := sigma * Real.sqrt T with hs_def
  have hs : 0 < s := mul_pos hsig (Real.sqrt_pos.mpr hT)
  set a := Real.log (S / K) + r * T with ha_def
  have hs2 : s ^ 2 = sigma ^ 2 * T := by
    rw [hs_def, mul_pow, Real.sq_sqrt hT.le]
  have hnum : Real.log (S / K) + (r + 0.5 * sigma ^ 2) * T = a + s ^ 2 / 2 := by
    rw [ha_def, hs2]; ring
  have hhalf : s ^ 2 / 2 / s = s / 2 := by
    rw [sq]; field_simp; ring
  have hd1 : (Real.log (S / K) + (r + 0.5 * sigma ^ 2) * T) / s = a / s + s / 2 := by
    rw [hnum, add_div, hhalf]
  have hd2 : a / s + s / 2 - s = a / s - s / 2 := by ring
  have hKS : K * Real.exp (-(r * T)) = S * Real.exp (-a) := by
    rw [ha_def, neg_add, Real.exp_add,
      show Real.exp (-Real.log (S / K)) = K / S from by
        rw [← Real.log_inv, Real.exp_log (by positivity), inv_div]]
    field_simp
  rw [hd1, hd2, neg_mul, hKS]
  have key := exp_mul_normCDF_le a s hs
  have hmul := mul_le_mul_of_nonneg_left key hS.le
  linarith [hmul]

/-- Non-negativity of the Black-Scholes put value, with `d1` and `d2` spelled out
as the source computes them. -/
theorem bs_put_nonneg (S K T r sigma : ℝ) (hS : 0 < S) (hK : 0 < K)
    (hT : 0 < T) (hsig : 0 < sigma) :
    0 ≤ K * Real.exp (-r * T) *
          normCDF (-((Real.log (S / K) + (r + 0.5 * sigma ^ 2) * T) /
            (sigma * Real.sqrt T) - sigma * Real.sqrt T)) -
        S * normCDF (-((Real.log (S / K) + (r + 0.5 * sigma ^ 2) * T) /
          (sigma * Real.sqrt T))) := by
  set s := sigma * Real.sqrt T with hs_def
  have hs : 0 < s := mul_pos hsig (Real.sqrt_pos.mpr hT)
  set a := Real.log (S / K) + r * T with ha_def
  have hs2 : s ^ 2 = sigma ^ 2 * T := by
    rw [hs_def, mul_pow, Real.sq_sqrt hT.le]
  have hnum : Real.log (S / K) + (r + 0.5 * sigma ^ 2) * T = a + s ^ 2 / 2 := by
    rw [ha_def, hs2]; ring
  have hhalf : s ^ 2 / 2 / s = s / 2 := by
    rw [sq]; field_simp; ring
  have hd1 : (Real.log (S / K) + (r + 0.5 * sigma ^ 2) * T) / s = a / s + s / 2 := by
    rw [hnum, add_div, hhalf]
  have hKS : K * Real.exp (-(r * T)) = S * Real.exp (-a) := by
    rw [ha_def, neg_add, Real.exp_add,
      show Real.exp (-Real.log (S / K)) = K / S from by
        rw [← Real.log_inv, Real.exp_log (by positivity), inv_div]]
    field_simp
  rw [hd1, neg_mul, hKS,
    show -(a / s + s / 2 - s) = -a / s + s / 2 from by ring,
    show -(a / s + s / 2) = -a / s - s / 2 from by ring]
  have key := exp_mul_normCDF_le (-a) s hs
  rw [neg_neg] at key
  have hee : Real.exp (-a) * Real.exp a = 1 := by
    rw [← Real.exp_add, neg_add_cancel, Real.exp_zero]
  have hmul := mul_le_mul_of_nonneg_left key
    (mul_nonneg hS.le (Real.exp_pos (-a)).le)
  have hrw : S * Real.exp (-a) * (Real.exp a * normCDF (-a / s - s / 2)) =
      S * normCDF (-a / s - s / 2) := by
    calc S * Real.exp (-a) * (Real.exp a * normCDF (-a / s - s / 2)) =
        S * (Real.exp (-a) * Real.exp a) * normCDF (-a / s - s / 2) := by ring
      _ = S * normCDF (-a / s - s / 2) := by rw [hee, mul_one]
  rw [hrw] at hmul
  linarith [hmul]

/-! ### Non-negativity (C6) and the Monte Carlo pricing formula (C3) -/

theorem BinomialTreeModel.payoff_nonneg (m : BinomialTreeModel) (t : OPTION_TYPE)
    (x : ℝ) : 0 ≤ m.payoff t x := by
  cases t <;> exact le_max_right _ _

theorem BinomialTreeModel.inductionStep_mem_nonneg (m : BinomialTreeModel)
    (hd : 0 ≤ m.discount) (hp : 0 ≤ m.p) (hq : 0 ≤ m.q) (V : List ℝ)
    (hV : ∀ x ∈ V, 0 ≤ x) : ∀ x ∈ m.inductionStep V, 0 ≤ x := by
  intro x hx
  simp only [inductionStep, List.mem_map] at hx
  obtain ⟨⟨y, z⟩, hmem, rfl⟩ := hx
  have hyz := List.of_mem_zip hmem
  exact mul_nonneg hd (add_nonneg (mul_nonneg hp (hV y hyz.1))
    (mul_nonneg hq (hV z (List.mem_of_mem_tail hyz.2))))

theorem BinomialTreeModel.iterate_mem_nonneg (m : BinomialTreeModel)
    (hd : 0 ≤ m.discount) (hp : 0 ≤ m.p) (hq : 0 ≤ m.q) (k : ℕ) :
    ∀ V : List ℝ, (∀ x ∈ V, 0 ≤ x) → ∀ x ∈ m.inductionStep^[k] V, 0 ≤ x := by
  induction k with
  | zero => intro V hV; simpa using hV
  | succ k ih =>
      intro V hV
      rw [Function.iterate_succ_apply]
      exact ih _ (m.inductionStep_mem_nonneg hd hp hq V hV)

theorem headD_nonneg (l : List ℝ) (h : ∀ x ∈ l, 0 ≤ x) : 0 ≤ l.headD 0 := by
  cases l with
  | nil => simp
  | cons y ys => exact h y (List.mem_cons_self y ys)

/-- The binomial price is non-negative whenever the instance's derived constants
satisfy `0 ≤ discount`, `0 ≤ p` and `0 ≤ q`. -/
theorem BinomialTreeModel.calculate_nonneg (m : BinomialTreeModel)
    (hd : 0 ≤ m.discount) (hp : 0 ≤ m.p) (hq : 0 ≤ m.q) (t : OPTION_TYPE) :
    ∃ c, m.calculate_option_price (.enum t) = .ok c ∧ 0 ≤ c := by
  refine ⟨_, rfl, ?_⟩
  refine headD_nonneg _ (m.iterate_mem_nonneg hd hp hq m.N _ ?_)
  intro x hx
  obtain ⟨y, _, rfl⟩ := List.mem_map.mp hx
  exact m.payoff_nonneg t y

theorem npMean_nonneg (l : List ℝ) (h : ∀ x ∈ l, 0 ≤ x) : 0 ≤ npMean l :=
  div_nonneg (List.sum_nonneg h) (Nat.cast_nonneg _)

/-- The Monte Carlo price is non-negative whenever the instance's discount factor
is. -/
theorem MonteCarloPricing.calculate_fst_nonneg (gauss : ℕ → ℕ → ℝ)
    (m : MonteCarloPricing) (rng : NumpyRandomState) (t : OPTION_TYPE)
    (hdf : 0 ≤ m.discount_factor) :
    ∃ c, (m.calculate_option_price gauss rng (.enum t)).1 = .ok c ∧ 0 ≤ c := by
  have hpay : ∀ (f : ℝ → ℝ) (l : List ℝ), (∀ x, 0 ≤ f x) → 0 ≤ npMean (l.map f) := by
    intro f l hf
    refine npMean_nonneg _ ?_
    intro x hx
    obtain ⟨y, _, rfl⟩ := List.mem_map.mp hx
    exact hf y
  obtain ⟨S0, K0, T0, r0, sg0, N0, df0, ST0⟩ := m
  rcases ST0 with _ | l <;> cases t <;>
    exact ⟨_, rfl, mul_nonneg hdf (hpay _ _ fun x => le_max_right _ _)⟩

/-- C6: each of the three engines, constructed with valid parameters
(`S>0, K>0, days>0, σ>0`, step count `N ≥ 1` with `0 ≤ p ≤ 1`, simulation count
`M ≥ 1`), returns a non-negative price for both defined option types. -/
theorem C6_price_nonneg (S K days r sigma : ℝ) (N M : ℕ) (gauss : ℕ → ℕ → ℝ)
    (rng : NumpyRandomState) (t : OPTION_TYPE)
    (hS : 0 < S) (hK : 0 < K) (hdays : 0 < days) (hsig : 0 < sigma)
    (hN : 1 ≤ N) (hM : 1 ≤ M)
    (hp0 : 0 ≤ (BinomialTreeModel.init S K days r sigma N).p)
    (hp1 : (BinomialTreeModel.init S K days r sigma N).p ≤ 1) :
    (∃ c, (BlackScholesModel.init S K days r sigma).calculate_option_price
        (.enum t) = .ok c ∧ 0 ≤ c) ∧
    (∃ c, (BinomialTreeModel.init S K days r sigma N).calculate_option_price
        (.enum t) = .ok c ∧ 0 ≤ c) ∧
    (∃ c, ((MonteCarloPricing.init S K days r sigma M rng).1.calculate_option_price
        gauss (MonteCarloPricing.init S K days r sigma M rng).2 (.enum t)).1 =
          .ok c ∧ 0 ≤ c) := by
  have hT : 0 < days / 365 := by positivity
  refine ⟨?_, ?_, ?_⟩
  · cases t
    · exact ⟨_, rfl, bs_call_nonneg S K (days / 365) r sigma hS hK hT hsig⟩
    · exact ⟨_, rfl, bs_put_nonneg S K (days / 365) r sigma hS hK hT hsig⟩
  · refine BinomialTreeModel.calculate_nonneg _ ?_ hp0 ?_ t
    · exact (Real.exp_pos _).le
    · have hq : (BinomialTreeModel.init S K days r sigma N).q =
          1 - (BinomialTreeModel.init S K days r sigma N).p := by
        norm_num [BinomialTreeModel.init]
      rw [hq]
      linarith
  · exact MonteCarloPricing.calculate_fst_nonneg gauss _ _ t (Real.exp_pos _).le

/-- C3: for a SimulationModel, `simulate_terminal_prices` sets the cache to
`S_0·exp((r - σ²/2)T + σ√T·Z)` elementwise over the `M` variates `Z` produced by
the generator, and `calculate_option_price` returns `e^{-rT}` times the mean of
the elementwise payoffs over those `M` terminal prices, for both option types. -/
theorem C3_monte_carlo_formulas (gauss : ℕ → ℕ → ℝ) (S0 K days r sigma : ℝ)
    (M : ℕ) (hM : 1 ≤ M) (rng0 : NumpyRandomState)
    (mi : MonteCarloPricing × NumpyRandomState)
    (hmi : mi = MonteCarloPricing.init S0 K days r sigma M rng0) :
    mi.1.T = days / 365 ∧
    mi.1.S_T = none ∧
    (standardNormal gauss M mi.2).1.length = M ∧
    (mi.1.simulate_terminal_prices gauss mi.2).1.S_T =
      some ((standardNormal gauss M mi.2).1.map fun z =>
        S0 * Real.exp ((r - sigma ^ 2 / 2) * mi.1.T +
          sigma * Real.sqrt mi.1.T * z)) ∧
    ((standardNormal gauss M mi.2).1.map fun z =>
        S0 * Real.exp ((r - sigma ^ 2 / 2) * mi.1.T +
          sigma * Real.sqrt mi.1.T * z)).length = M ∧
    (mi.1.calculate_option_price gauss mi.2 (.enum .CALL_OPTION)).1 =
      .ok (Real.exp (-(r * mi.1.T)) *
        npMean (((standardNormal gauss M mi.2).1.map fun z =>
          S0 * Real.exp ((r - sigma ^ 2 / 2) * mi.1.T +
            sigma * Real.sqrt mi.1.T * z)).map fun sT => max (sT - K) 0)) ∧
    (mi.1.calculate_option_price gauss mi.2 (.enum .PUT_OPTION)).1 =
      .ok (Real.exp (-(r * mi.1.T)) *
        npMean (((standardNormal gauss M mi.2).1.map fun z =>
          S0 * Real.exp ((r - sigma ^ 2 / 2) * mi.1.T +
            sigma * Real.sqrt mi.1.T * z)).map fun sT => max (K - sT) 0)) := by
  subst hmi
  have hfun : (fun z => S0 * Real.exp ((r - sigma ^ 2 / 2) * (days / 365) +
      sigma * Real.sqrt (days / 365) * z)) =
      fun z => S0 * Real.exp ((r - 0.5 * sigma ^ 2) * (days / 365) +
        sigma * Real.sqrt (days / 365) * z) := by
    funext z
    ring_nf
  refine ⟨rfl, rfl, by simp [standardNormal], ?_, ?_, ?_, ?_⟩
  · simp only [MonteCarloPricing.simulate_terminal_prices,
      MonteCarloPricing.init, numpySeed, hfun]
  · simp [standardNormal]
  · simp only [MonteCarloPricing.calculate_option_price,
      MonteCarloPricing.simulate_terminal_prices, MonteCarloPricing.init,
      numpySeed, hfun, neg_mul, Option.getD_some]
  · simp only [MonteCarloPricing.calculate_option_price,
      MonteCarloPricing.simulate_terminal_prices, MonteCarloPricing.init,
      numpySeed, hfun, neg_mul, Option.getD_some]

/-! ### Concrete witnesses -/

/-- Witness for C1 at `S=100, K=95, days=365, r=0.05, σ=0.2`. -/
theorem C1_witness :
    (0:ℝ) < 100 ∧ (0:ℝ) < 95 ∧ (0:ℝ) < 365 ∧ (0:ℝ) < 0.2 ∧
    ((BlackScholesModel.init 100 95 365 0.05 0.2).T = 365 / 365 ∧
     (BlackScholesModel.init 100 95 365 0.05 0.2).d1 =
       (Real.log (100 / 95) + (0.05 + 0.2 ^ 2 / 2) *
         (BlackScholesModel.init 100 95 365 0.05 0.2).T) /
       (0.2 * Real.sqrt (BlackScholesModel.init 100 95 365 0.05 0.2).T) ∧
     (BlackScholesModel.init 100 95 365 0.05 0.2).d2 =
       (BlackScholesModel.init 100 95 365 0.05 0.2).d1 -
         0.2 * Real.sqrt (BlackScholesModel.init 100 95 365 0.05 0.2).T ∧
     (BlackScholesModel.init 100 95 365 0.05 0.2).calculate_option_price
         (.enum .CALL_OPTION) =
       .ok (100 * normCDF (BlackScholesModel.init 100 95 365 0.05 0.2).d1 -
         95 * Real.exp (-(0.05 * (BlackScholesModel.init 100 95 365 0.05 0.2).T)) *
           normCDF (BlackScholesModel.init 100 95 365 0.05 0.2).d2) ∧
     (BlackScholesModel.init 100 95 365 0.05 0.2).calculate_option_price
         (.enum .PUT_OPTION) =
       .ok (95 * Real.exp (-(0.05 * (BlackScholesModel.init 100 95 365 0.05 0.2).T)) *
           normCDF (-(BlackScholesModel.init 100 95 365 0.05 0.2).d2) -
         100 * normCDF (-(BlackScholesModel.init 100 95 365 0.05 0.2).d1))) :=
  ⟨by norm_num, by norm_num, by norm_num, by norm_num,
   C1_black_scholes_formulas 100 95 365 0.05 0.2 (by norm_num) (by norm_num)
     (by norm_num) (by norm_num) _ rfl⟩

/-- Witness for C4 at `S=100, K=95, days=365, r=0.05, σ=0.2`. -/
theorem C4_witness :
    (0:ℝ) < 100 ∧ (0:ℝ) < 95 ∧ (0:ℝ) < 365 ∧ (0:ℝ) < 0.2 ∧
    (∃ c p : ℝ,
      (BlackScholesModel.init 100 95 365 0.05 0.2).calculate_option_price
        (.enum .CALL_OPTION) = .ok c ∧
      (BlackScholesModel.init 100 95 365 0.05 0.2).calculate_option_price
        (.enum .PUT_OPTION) = .ok p ∧
      c - p = 100 - 95 * Real.exp (-(0.05 * (365 / 365)))) :=
  ⟨by norm_num, by norm_num, by norm_num, by norm_num,
   C4_put_call_parity 100 95 365 0.05 0.2 (by norm_num) (by norm_num)
     (by norm_num) (by norm_num) _ rfl⟩

/-- Witness for C2 at `S=100, K=95, days=365, r=0.05, σ=0.2, N=2`, call option. -/
theorem C2_witness :
    1 ≤ 2 ∧
    ((BinomialTreeModel.init 100 95 365 0.05 0.2 2).T = 365 / 365 ∧
     (BinomialTreeModel.init 100 95 365 0.05 0.2 2).dT =
       (BinomialTreeModel.init 100 95 365 0.05 0.2 2).T / ((2:ℕ):ℝ) ∧
     (BinomialTreeModel.init 100 95 365 0.05 0.2 2).u =
       Real.exp (0.2 * Real.sqrt (BinomialTreeModel.init 100 95 365 0.05 0.2 2).dT) ∧
     (BinomialTreeModel.init 100 95 365 0.05 0.2 2).d =
       1 / (BinomialTreeModel.init 100 95 365 0.05 0.2 2).u ∧
     (BinomialTreeModel.init 100 95 365 0.05 0.2 2).p =
       (Real.exp (0.05 * (BinomialTreeModel.init 100 95 365 0.05 0.2 2).dT) -
         (BinomialTreeModel.init 100 95 365 0.05 0.2 2).d) /
       ((BinomialTreeModel.init 100 95 365 0.05 0.2 2).u -
         (BinomialTreeModel.init 100 95 365 0.05 0.2 2).d) ∧
     (BinomialTreeModel.init 100 95 365 0.05 0.2 2).q =
       1 - (BinomialTreeModel.init 100 95 365 0.05 0.2 2).p ∧
     (BinomialTreeModel.init 100 95 365 0.05 0.2 2).discount =
       Real.exp (-(0.05 * (BinomialTreeModel.init 100 95 365 0.05 0.2 2).dT)) ∧
     (BinomialTreeModel.init 100 95 365 0.05 0.2 2).terminalPrices.length = 2 + 1 ∧
     (∀ j ≤ 2, (BinomialTreeModel.init 100 95 365 0.05 0.2 2).terminalPrices.getD j 0 =
       100 * (BinomialTreeModel.init 100 95 365 0.05 0.2 2).u ^ (2 - j) *
         (BinomialTreeModel.init 100 95 365 0.05 0.2 2).d ^ j) ∧
     (BinomialTreeModel.init 100 95 365 0.05 0.2 2).payoff .CALL_OPTION =
       (fun sT => max (sT - 95) 0) ∧
     (BinomialTreeModel.init 100 95 365 0.05 0.2 2).payoff .PUT_OPTION =
       (fun sT => max (95 - sT) 0) ∧
     (∀ V : List ℝ,
       ((BinomialTreeModel.init 100 95 365 0.05 0.2 2).inductionStep V).length =
         V.length - 1) ∧
     (∀ (V : List ℝ) (i : ℕ), i + 1 < V.length →
       ((BinomialTreeModel.init 100 95 365 0.05 0.2 2).inductionStep V).getD i 0 =
         (BinomialTreeModel.init 100 95 365 0.05 0.2 2).discount *
           ((BinomialTreeModel.init 100 95 365 0.05 0.2 2).p * V.getD i 0 +
             (BinomialTreeModel.init 100 95 365 0.05 0.2 2).q * V.getD (i + 1) 0)) ∧
     (∀ k ≤ 2,
       ((BinomialTreeModel.init 100 95 365 0.05 0.2 2).inductionStep^[k]
         ((BinomialTreeModel.init 100 95 365 0.05 0.2 2).terminalPrices.map
           ((BinomialTreeModel.init 100 95 365 0.05 0.2 2).payoff .CALL_OPTION))).length =
       2 + 1 - k) ∧
     ((BinomialTreeModel.init 100 95 365 0.05 0.2 2).inductionStep^[2]
       ((BinomialTreeModel.init 100 95 365 0.05 0.2 2).terminalPrices.map
         ((BinomialTreeModel.init 100 95 365 0.05 0.2 2).payoff .CALL_OPTION))).length = 1 ∧
     (BinomialTreeModel.init 100 95 365 0.05 0.2 2).calculate_option_price
         (.enum .CALL_OPTION) =
       .ok (((BinomialTreeModel.init 100 95 365 0.05 0.2 2).inductionStep^[2]
         ((BinomialTreeModel.init 100 95 365 0.05 0.2 2).terminalPrices.map
           ((BinomialTreeModel.init 100 95 365 0.05 0.2 2).payoff
             .CALL_OPTION))).headD 0)) :=
  ⟨by norm_num,
   C2_binomial_backward_induction 100 95 365 0.05 0.2 2 (by norm_num)
     .CALL_OPTION _ rfl⟩

/-- Witness for C10 at `S=100, K=95, days=365, r=0.05, σ=0.2, N=2`, call option. -/
theorem C10_witness :
    1 ≤ 2 ∧
    (BinomialTreeModel.init 100 95 365 0.05 0.2 2).calculate_option_price
        (.enum .CALL_OPTION) =
      .ok ((BinomialTreeModel.init 100 95 365 0.05 0.2 2).discount ^ (2:ℕ) *
        ∑ j ∈ Finset.range (2 + 1), ((2:ℕ).choose j : ℝ) *
          (BinomialTreeModel.init 100 95 365 0.05 0.2 2).p ^ (2 - j) *
          (BinomialTreeModel.init 100 95 365 0.05 0.2 2).q ^ j *
          (BinomialTreeModel.init 100 95 365 0.05 0.2 2).payoff .CALL_OPTION
            (100 * (BinomialTreeModel.init 100 95 365 0.05 0.2 2).u ^ (2 - j) *
              (BinomialTreeModel.init 100 95 365 0.05 0.2 2).d ^ j)) :=
  ⟨by norm_num,
   C10_backward_induction_closed_form 100 95 365 0.05 0.2 2 (by norm_num)
     .CALL_OPTION _ rfl⟩

/-- Witness for C3 at `S=100, K=95, days=365, r=0.05, σ=0.2, M=2`. -/
theorem C3_witness :
    1 ≤ 2 ∧
    ((MonteCarloPricing.init 100 95 365 0.05 0.2 2 ⟨0, 0⟩).1.T = 365 / 365 ∧
     (MonteCarloPricing.init 100 95 365 0.05 0.2 2 ⟨0, 0⟩).1.S_T = none ∧
     (standardNormal zeroGauss 2
       (MonteCarloPricing.init 100 95 365 0.05 0.2 2 ⟨0, 0⟩).2).1.length = 2 ∧
     ((MonteCarloPricing.init 100 95 365 0.05 0.2 2 ⟨0, 0⟩).1.simulate_terminal_prices
         zeroGauss (MonteCarloPricing.init 100 95 365 0.05 0.2 2 ⟨0, 0⟩).2).1.S_T =
       some ((standardNormal zeroGauss 2
           (MonteCarloPricing.init 100 95 365 0.05 0.2 2 ⟨0, 0⟩).2).1.map fun z =>
         100 * Real.exp ((0.05 - 0.2 ^ 2 / 2) *
             (MonteCarloPricing.init 100 95 365 0.05 0.2 2 ⟨0, 0⟩).1.T +
           0.2 * Real.sqrt (MonteCarloPricing.init 100 95 365 0.05 0.2 2 ⟨0, 0⟩).1.T *
             z)) ∧
     ((standardNormal zeroGauss 2
         (MonteCarloPricing.init 100 95 365 0.05 0.2 2 ⟨0, 0⟩).2).1.map fun z =>
       100 * Real.exp ((0.05 - 0.2 ^ 2 / 2) *
           (MonteCarloPricing.init 100 95 365 0.05 0.2 2 ⟨0, 0⟩).1.T +
         0.2 * Real.sqrt (MonteCarloPricing.init 100 95 365 0.05 0.2 2 ⟨0, 0⟩).1.T *
           z)).length = 2 ∧
     ((MonteCarloPricing.init 100 95 365 0.05 0.2 2 ⟨0, 0⟩).1.calculate_option_price
         zeroGauss (MonteCarloPricing.init 100 95 365 0.05 0.2 2 ⟨0, 0⟩).2
         (.enum .CALL_OPTION)).1 =
       .ok (Real.exp (-(0.05 * (MonteCarloPricing.init 100 95 365 0.05 0.2 2 ⟨0, 0⟩).1.T)) *
         npMean (((standardNormal zeroGauss 2
             (MonteCarloPricing.init 100 95 365 0.05 0.2 2 ⟨0, 0⟩).2).1.map fun z =>
           100 * Real.exp ((0.05 - 0.2 ^ 2 / 2) *
               (MonteCarloPricing.init 100 95 365 0.05 0.2 2 ⟨0, 0⟩).1.T +
             0.2 * Real.sqrt (MonteCarloPricing.init 100 95 365 0.05 0.2 2 ⟨0, 0⟩).1.T *
               z)).map fun sT => max (sT - 95) 0)) ∧
     ((MonteCarloPricing.init 100 95 365 0.05 0.2 2 ⟨0, 0⟩).1.calculate_option_price
         zeroGauss (MonteCarloPricing.init 100 95 365 0.05 0.2 2 ⟨0, 0⟩).2
         (.enum .PUT_OPTION)).1 =
       .ok (Real.exp (-(0.05 * (MonteCarloPricing.init 100 95 365 0.05 0.2 2 ⟨0, 0⟩).1.T)) *
         npMean (((standardNormal zeroGauss 2
             (MonteCarloPricing.init 100 95 365 0.05 0.2 2 ⟨0, 0⟩).2).1.map fun z =>
           100 * Real.exp ((0.05 - 0.2 ^ 2 / 2) *
               (MonteCarloPricing.init 100 95 365 0.05 0.2 2 ⟨0, 0⟩).1.T +
             0.2 * Real.sqrt (MonteCarloPricing.init 100 95 365 0.05 0.2 2 ⟨0, 0⟩).1.T *
               z)).map fun sT => max (95 - sT) 0))) :=
  ⟨by norm_num,
   C3_monte_carlo_formulas zeroGauss 100 95 365 0.05 0.2 2 (by norm_num) ⟨0, 0⟩
     _ rfl⟩

/-- Bounds on the risk-neutral probability of the lattice instance used in the
C6 witness. -/
theorem C6_witness_p_bounds :
    0 ≤ (BinomialTreeModel.init 100 100 365 0 1 1).p ∧
      (BinomialTreeModel.init 100 100 365 0 1 1).p ≤ 1 := by
  have hp : (BinomialTreeModel.init 100 100 365 0 1 1).p =
      (1 - (Real.exp 1)⁻¹) / (Real.exp 1 - (Real.exp 1)⁻¹) := by
    norm_num [BinomialTreeModel.init, Real.sqrt_one, Real.exp_zero]
  have hE : (1:ℝ) < Real.exp 1 := by
    have := Real.add_one_le_exp (1:ℝ)
    linarith
  have hEpos : (0:ℝ) < Real.exp 1 := Real.exp_pos 1
  have hEinv : (Real.exp 1)⁻¹ < 1 := by
    rw [inv_lt_one_iff₀]
    right
    exact hE
  have hEinvpos : (0:ℝ) < (Real.exp 1)⁻¹ := by positivity
  have hden : (0:ℝ) < Real.exp 1 - (Real.exp 1)⁻¹ := by linarith
  constructor
  · rw [hp]
    exact div_nonneg (by linarith) hden.le
  · rw [hp, div_le_one hden]
    linarith

/-- Witness for C6 at `S=K=100, days=365, r=0, σ=1, N=1, M=1`, call option. -/
theorem C6_witness :
    (0:ℝ) < 100 ∧ (0:ℝ) < 365 ∧ (0:ℝ) < 1 ∧ (1:ℕ) ≤ 1 ∧
    0 ≤ (BinomialTreeModel.init 100 100 365 0 1 1).p ∧
    (BinomialTreeModel.init 100 100 365 0 1 1).p ≤ 1 ∧
    ((∃ c, (BlackScholesModel.init 100 100 365 0 1).calculate_option_price
        (.enum .CALL_OPTION) = .ok c ∧ 0 ≤ c) ∧
     (∃ c, (BinomialTreeModel.init 100 100 365 0 1 1).calculate_option_price
        (.enum .CALL_OPTION) = .ok c ∧ 0 ≤ c) ∧
     (∃ c, ((MonteCarloPricing.init 100 100 365 0 1 1 ⟨0, 0⟩).1.calculate_option_price
        zeroGauss (MonteCarloPricing.init 100 100 365 0 1 1 ⟨0, 0⟩).2
        (.enum .CALL_OPTION)).1 = .ok c ∧ 0 ≤ c)) :=
  ⟨by norm_num, by norm_num, by norm_num, le_rfl,
   C6_witness_p_bounds.1, C6_witness_p_bounds.2,
   C6_price_nonneg 100 100 365 0 1 1 1 zeroGauss ⟨0, 0⟩ .CALL_OPTION
     (by norm_num) (by norm_num) (by norm_num) (by norm_num) le_rfl le_rfl
     C6_witness_p_bounds.1 C6_witness_p_bounds.2⟩

end QuantST
